import Mathlib

/-!
Verification of the doux audio engine (sova-org/doux) against its
natural-language specification.

Shallow embedding conventions:
* `f32`/`f64` values are modelled as `ℚ` with exact arithmetic; the engine's
  fast transcendental approximations (`fastmath.rs`) are rational formulas and
  are translated literally where a claim depends on them, or abstracted into a
  universally quantified function parameter where only their range matters.
* Machine integers (`u32`, `usize`) are modelled as `Nat`, with `% 2^32` where
  wrapping arithmetic occurs in the source (`wrapping_mul`/`wrapping_add`).
* `Vec<T>` becomes `List T`; in-place mutation becomes explicit state passing.
* Unbounded `loop`s become fuel-indexed recursion; the fuel only bounds the
  number of iterations and never changes the result of an iteration.
-/

namespace Doux

/-- `f64::MAX`, the fallback sort key used by `Schedule::push` for events
without a time (`event.time.unwrap_or(f64::MAX)` in src/schedule.rs). -/
def f64MAX : ℚ := 2 ^ 1024 - 2 ^ 971

/-- Rust's `f32::clamp(lo, hi)` on exact rationals. -/
def qclamp (x lo hi : ℚ) : ℚ := min (max x lo) hi

/-- `MAX_EVENTS` from src/types.rs. -/
def MAX_EVENTS : Nat := 256

/-- The subset of the fields of `Event` (src/event.rs) that the claims under
verification read: timing, voice control, cut group, and `freq` (kept so that
two events with equal times can differ in payload).  All other `Event` fields
are irrelevant to scheduling, dispatch and panic behaviour. -/
structure EventM where
  cmd : Option String := none
  time : Option ℚ := none
  delta : Option ℚ := none
  /-- source field `repeat` (a Lean keyword). -/
  rep : Option ℚ := none
  duration : Option ℚ := none
  gate : Option ℚ := none
  voice : Option Nat := none
  reset : Option Bool := none
  cut : Option Nat := none
  freq : Option ℚ := none
  sound : Option String := none
deriving DecidableEq

/-- The sort key of `Schedule::push`: `event.time.unwrap_or(f64::MAX)`. -/
def schedKey (e : EventM) : ℚ := e.time.getD f64MAX

/-- The sortedness relation of the schedule invariant. -/
def keyLe (a b : EventM) : Prop := schedKey a ≤ schedKey b

namespace Schedule

/-- `Schedule::new` (src/schedule.rs): an empty event list. -/
def new : List EventM := []

/-- `Schedule::push` (src/schedule.rs:49-58).  Events at capacity are
silently dropped; otherwise the event is inserted at
`partition_point(|e| e.time.unwrap_or(MAX) < time)`, which on a sorted list
is the length of the prefix of strictly earlier events — here written as
`takeWhile`/`dropWhile`. -/
def push (s : List EventM) (e : EventM) : List EventM :=
  if MAX_EVENTS ≤ s.length then s
  else
    s.takeWhile (fun x => decide (schedKey x < schedKey e)) ++
      e :: s.dropWhile (fun x => decide (schedKey x < schedKey e))

/-- `Schedule::peek_time`: `events.first().and_then(|e| e.time)`. -/
def peek_time (s : List EventM) : Option ℚ :=
  s.head?.bind (fun e => e.time)

/-- `Schedule::pop_front`: removes and returns the earliest event. -/
def pop_front (s : List EventM) : Option EventM × List EventM :=
  match s with
  | [] => (none, [])
  | x :: xs => (some x, xs)

end Schedule

/-- One operation on a schedule, for stating "after any sequence of `push`
and `pop_front`". -/
inductive SchedOp where
  | push (e : EventM)
  | pop

/-- Applies one schedule operation. -/
def applySchedOp (s : List EventM) : SchedOp → List EventM
  | .push e => Schedule.push s e
  | .pop => (Schedule.pop_front s).2

/-- Applies a sequence of schedule operations in order. -/
def applySchedOps (ops : List SchedOp) (s : List EventM) : List EventM :=
  ops.foldl applySchedOp s

/-- Concrete event: time 1 s, freq 100 (first pushed in the FIFO test). -/
def evA : EventM := { time := some 1, freq := some 100 }

/-- Concrete event: time 1 s, freq 200 (second pushed in the FIFO test). -/
def evB : EventM := { time := some 1, freq := some 200 }

/-- The catch-up limit: the literal `0.02` (20 ms) compared against
`diff = self.time - t` in `Engine::process_schedule` (src/lib.rs:720). -/
def CATCHUP_LIMIT : ℚ := 1 / 50

/-- The scheduler-visible slice of the engine state for
`Engine::process_schedule`, plus observation logs.  `dispatched`, `popped`
and `repushed` are ghost logs recording, respectively, the events passed to
`process_event`, the events removed by `pop_front`, and the repeat copies
re-inserted by `push`; they never influence control flow. -/
structure SchedRun where
  schedule : List EventM
  time : ℚ
  dispatched : List EventM := []
  popped : List EventM := []
  repushed : List EventM := []
deriving DecidableEq

/-- The repeat copy scheduled for a fired repeating event:
`event.time = Some(t + rep)` (src/lib.rs:726). -/
def repushEvent (ev : EventM) (t rp : ℚ) : EventM :=
  { ev with time := some (t + rp) }

/-- The state after one iteration of the `process_schedule` loop has popped
the due head event `ev` (with time `t`), dispatched it if it is less than
20 ms late, and re-pushed its repeat copy if it has one. -/
def stepState (st : SchedRun) (ev : EventM) (rest : List EventM) (t : ℚ) :
    SchedRun :=
  { schedule :=
      match ev.rep with
      | some rp => Schedule.push rest (repushEvent ev t rp)
      | none => rest,
    time := st.time,
    dispatched := st.dispatched ++
      (if st.time - t < CATCHUP_LIMIT then [ev] else []),
    popped := st.popped ++ [ev],
    repushed := st.repushed ++
      (match ev.rep with
       | some rp => [repushEvent ev t rp]
       | none => []) }

/-- `Engine::process_schedule` (src/lib.rs:709-731).  The Rust `loop` becomes
fuel-indexed recursion; `false` in the result means the fuel ran out before
the loop's own exit condition was reached (the loop guard is
`peek_time() ≤ self.time`, here inlined on the head of the sorted list).  A
popped event is dispatched only when `diff < 0.02`, and a repeat copy is
pushed whether or not the event was dispatched, exactly as in the source. -/
def processScheduleAux : Nat → SchedRun → SchedRun × Bool
  | 0, st => (st, false)
  | fuel + 1, st =>
    match st.schedule with
    | [] => (st, true)
    | ev :: rest =>
      match ev.time with
      | none => (st, true)
      | some t =>
        if t ≤ st.time then processScheduleAux fuel (stepState st ev rest t)
        else (st, true)

/-- Whether a popped event is inside the catch-up window and hence
dispatched: `self.time - t < 0.02`. -/
def dueFilter (now : ℚ) (ev : EventM) : Bool :=
  decide (now - ev.time.getD 0 < CATCHUP_LIMIT)

/-- The repeat copy an event produces when popped, if any. -/
def repushOf (ev : EventM) : Option EventM :=
  match ev.time, ev.rep with
  | some t, some rp => some (repushEvent ev t rp)
  | _, _ => none

/-- An event scheduled at t = 0 with no repeat. -/
def lateEvent : EventM := { time := some 0 }

/-- Scheduler state with `lateEvent` pending and the engine clock at exactly
20 ms (`tick = 1` at `sr = 50`, so `time = 1/50` exactly, in `f64` as well
as in `ℚ`). -/
def stBoundary : SchedRun := { schedule := [lateEvent], time := 1 / 50 }

/-- Scheduler state used by the C5 witness: one repeating event, 10 ms late
(inside the catch-up window). -/
def stWitness : SchedRun :=
  { schedule := [{ time := some 0, rep := some 1 }], time := 1 / 100 }

/-- The subset of the ~170 `VoiceParams` fields (src/voice/params.rs) that
the dispatch/panic claims read or write, with their documented defaults
(`freq: 330.0, pan: 0.5, gate: 1.0, duration: None, cut: None`). -/
structure VoiceParamsM where
  freq : ℚ := 330
  pan : ℚ := 1 / 2
  gate : ℚ := 1
  duration : Option ℚ := none
  cut : Option Nat := none
deriving DecidableEq

/-- A voice, reduced to its parameter block (`Voice::default()` gives default
parameters); the DSP state of a voice is irrelevant to the dispatch claims. -/
structure VoiceM where
  params : VoiceParamsM := {}
deriving DecidableEq

/-- An orbit's per-channel send accumulators (src/orbit.rs:326-340): the
`delay_send`, `verb_send` and `comb_send` pairs.  The delay lines, reverb and
comb state do not appear in the claims under verification. -/
structure OrbitM where
  delay_send : ℚ × ℚ := (0, 0)
  verb_send : ℚ × ℚ := (0, 0)
  comb_send : ℚ × ℚ := (0, 0)
deriving DecidableEq

/-- `Orbit::clear_sends` (src/orbit.rs:361-365): zeroes all three send
accumulator pairs.  Called at the start of every `gen_sample`. -/
def OrbitM.clear_sends (o : OrbitM) : OrbitM :=
  { o with delay_send := (0, 0), verb_send := (0, 0), comb_send := (0, 0) }

/-- The engine state visible to the event-dispatch and panic claims
(src/lib.rs `Engine`, reduced to `max_voices`, `voices`, `active_voices`,
`orbits`, `schedule`, `time`, `tick`). -/
structure EngineM where
  max_voices : Nat
  voices : List VoiceM
  active_voices : Nat
  orbits : List OrbitM
  schedule : List EventM
  time : ℚ
  tick : Nat
deriving DecidableEq

/-- `voices[i].params.gate = 0.0` — the release write used by the cut-group,
hush and release paths. -/
def releaseGate (v : VoiceM) : VoiceM :=
  { v with params := { v.params with gate := 0 } }

/-- Models the source's `for i in 0..n { voices[i] = f(i, voices[i]) }`
loops: applies `f` to each element together with its index (starting at
`i`). -/
def mapIdxFrom (f : Nat → α → α) : Nat → List α → List α
  | _, [] => []
  | i, a :: as => f i a :: mapIdxFrom f (i + 1) as

/-- The cut-group release loop (src/lib.rs:324-331): every live voice whose
`cut` equals the event's cut group gets `gate = 0`. -/
def cutReleaseVoices (active cut : Nat) (vs : List VoiceM) : List VoiceM :=
  mapIdxFrom (fun i v =>
    if i < active ∧ v.params.cut = some cut then releaseGate v else v) 0 vs

/-- The hush loop (src/lib.rs:907-911): every live voice gets `gate = 0`. -/
def hushVoices (active : Nat) (vs : List VoiceM) : List VoiceM :=
  mapIdxFrom (fun i v => if i < active then releaseGate v else v) 0 vs

/-- The release command's single-voice write: `voices[v].params.gate = 0`. -/
def releaseVoiceAt (v : Nat) (vs : List VoiceM) : List VoiceM :=
  mapIdxFrom (fun i w => if i = v then releaseGate w else w) 0 vs

/-- The hush_endless loop (src/lib.rs:275-281): every live voice without an
explicit duration gets `gate = 0`. -/
def hushEndlessVoices (active : Nat) (vs : List VoiceM) : List VoiceM :=
  mapIdxFrom (fun i v =>
    if i < active ∧ v.params.duration = none then releaseGate v else v) 0 vs

/-- `Engine::hush` (src/lib.rs:907-911): ramp all active voices to gate 0. -/
def EngineM.hush (e : EngineM) : EngineM :=
  { e with voices := hushVoices e.active_voices e.voices }

/-- `Engine::panic` (src/lib.rs:913-915): `self.active_voices = 0;` and
nothing else. -/
def EngineM.panic (e : EngineM) : EngineM :=
  { e with active_voices := 0 }

/-- Voice allocation and parameter installation, the tail of
`Engine::process_event` (src/lib.rs:377-391): bump the voice count for a new
voice, reset the voice when new or `reset=true`, then copy the event's
fields into the voice's parameter block.  `upd` abstracts
`update_voice_params` (src/lib.rs:395-700), which writes only the selected
voice's parameter block; the claims hold for every such function. -/
def finishEvent (upd : VoiceParamsM → EventM → VoiceParamsM) (e : EngineM)
    (ev : EventM) (idx : Nat) (isNew : Bool) : Option Nat × EngineM :=
  let e1 := if isNew then { e with active_voices := e.active_voices + 1 } else e
  let e2 := if isNew || ev.reset.getD false
    then { e1 with voices := e1.voices.set idx {} } else e1
  (some idx,
    { e2 with voices :=
        e2.voices.set idx { params := upd (e2.voices.getD idx {}).params ev } })

/-- `Engine::process_event` (src/lib.rs:323-392).  In order: the cut-group
release (324-331), the sample-availability check (333-352, abstracted into
the boolean `soundOk` — a missing sample returns `None` there), and voice
selection (354-375): reuse an existing index, else allocate a new voice
unless `active_voices >= max_voices`, in which case the event is dropped. -/
def processEvent (soundOk : EventM → Bool)
    (upd : VoiceParamsM → EventM → VoiceParamsM) (e : EngineM) (ev : EventM) :
    Option Nat × EngineM :=
  let e1 := match ev.cut with
    | some cut =>
      { e with voices := cutReleaseVoices e.active_voices cut e.voices }
    | none => e
  if soundOk ev then
    match ev.voice with
    | some v =>
      if v < e1.active_voices then finishEvent upd e1 ev v false
      else if e1.max_voices ≤ e1.active_voices then (none, e1)
      else finishEvent upd e1 ev e1.active_voices true
    | none =>
      if e1.max_voices ≤ e1.active_voices then (none, e1)
      else finishEvent upd e1 ev e1.active_voices true
  else (none, e1)

/-- `Engine::play_event` (src/lib.rs:296-308): resolve `delta` into an
absolute time, send any timed event to the schedule, otherwise dispatch
immediately. -/
def play_event (soundOk : EventM → Bool)
    (upd : VoiceParamsM → EventM → VoiceParamsM) (e : EngineM) (ev : EventM) :
    Option Nat × EngineM :=
  let ev1 := match ev.delta with
    | some d => { ev with time := some (e.time + d), delta := none }
    | none => ev
  if ev1.time.isSome
  then (none, { e with schedule := Schedule.push e.schedule ev1 })
  else processEvent soundOk upd e ev1

/-- The default command when an event carries none: `"play"`. -/
def defaultCmd : String := "play"

/-- `Engine::evaluate` (src/lib.rs:244-294), given the already-parsed event:
the command dispatch over `play`, `hush`, `panic`, `reset`, `release`,
`hush_endless`, `reset_time`, `reset_schedule`. -/
def evaluate (soundOk : EventM → Bool)
    (upd : VoiceParamsM → EventM → VoiceParamsM) (e : EngineM) (ev : EventM) :
    Option Nat × EngineM :=
  match ev.cmd.getD defaultCmd with
  | "play" => play_event soundOk upd e ev
  | "hush" => (none, e.hush)
  | "panic" => (none, e.panic)
  | "reset" => (none, { e.panic with schedule := [], time := 0, tick := 0 })
  | "release" =>
    (none,
      match ev.voice with
      | some v =>
        if v < e.active_voices
        then { e with voices := releaseVoiceAt v e.voices }
        else e
      | none => e)
  | "hush_endless" =>
    (none, { e with voices := hushEndlessVoices e.active_voices e.voices })
  | "reset_time" => (none, { e with time := 0, tick := 0 })
  | "reset_schedule" => (none, { e with schedule := [] })
  | _ => (none, e)

/-- A sample-availability oracle that reports every sound present. -/
def soundOkAll : EventM → Bool := fun _ => true

/-- A parameter-installation function that installs nothing. -/
def updId : VoiceParamsM → EventM → VoiceParamsM := fun p _ => p

/-- An orbit whose left delay send accumulator holds 1/2 (as it does right
after a sample in which a voice sent into the delay). -/
def orbitHot : OrbitM := { delay_send := (1 / 2, 0) }

/-- Engine state for the C4 counterexample: three active voices and one
orbit with a non-zero send accumulator. -/
def enginePanicEx : EngineM :=
  { max_voices := 32, voices := [], active_voices := 3, orbits := [orbitHot],
    schedule := [], time := 0, tick := 0 }

/-- The parsed `panic` command. -/
def evPanic : EventM := { cmd := some "panic" }

/-- Engine state for the C6 counterexample: fully saturated
(`active_voices == max_voices == 1`) with the one live voice in cut group 1
and gate high. -/
def engineFull : EngineM :=
  { max_voices := 1, voices := [{ params := { cut := some 1 } }],
    active_voices := 1, orbits := [], schedule := [], time := 0, tick := 0 }

/-- A play event carrying cut group 1, no explicit voice index. -/
def evCut : EventM := { cut := some 1 }

/-- `SampleData` reduced to its frame bookkeeping
(src/sampling/registry.rs): `frame_count` frames actually present,
`total_frames` in the complete file (`frame_count < total_frames` for a head
preload). -/
structure SampleDataM where
  frame_count : Nat
  total_frames : Nat
deriving DecidableEq

/-- `Cursor` (src/sampling/cursor.rs): fractional playback position `pos`
relative to `start_pos`, region `length`, and the reverse-init flag. -/
structure Cursor where
  pos : ℚ := 0
  start_pos : ℚ := 0
  length : ℚ := 0
  started : Bool := false
deriving DecidableEq

namespace Cursor

/-- `Cursor::compute_range` (src/sampling/cursor.rs:57-68): clamp the
normalized bounds to [0,1], swap if reversed, scale by the frame count. -/
def compute_range (frame_count : Nat) (b0 e0 : ℚ) : ℚ × ℚ :=
  let b := qclamp b0 0 1
  let e := qclamp e0 0 1
  let p := if b ≤ e then (b, e) else (e, b)
  (p.1 * frame_count, (p.2 - p.1) * frame_count)

/-- `Cursor::new` (src/sampling/cursor.rs:46-54). -/
def new (frame_count : Nat) (b0 e0 : ℚ) : Cursor :=
  let r := compute_range frame_count b0 e0
  { pos := 0, start_pos := r.1, length := r.2, started := false }

/-- `Cursor::upgrade_frame_count` (src/sampling/cursor.rs:84-92): recompute
the playback range for a new frame count.  `pos` is not modified. -/
def upgrade_frame_count (c : Cursor) (old_fc new_fc : Nat) : Cursor :=
  let b := c.start_pos / old_fc
  let e := b + c.length / old_fc
  let r := compute_range new_fc b e
  { c with start_pos := r.1, length := r.2 }

/-- `Cursor::advance` (src/sampling/cursor.rs:96-106): first advance with a
negative speed starts at the end; then `pos += speed`. -/
def advance (c : Cursor) (speed : ℚ) : Cursor :=
  let c1 := if !c.started
    then { c with started := true,
                  pos := if speed < 0 then c.length else c.pos }
    else c
  { c1 with pos := c1.pos + speed }

end Cursor

/-- `RegistrySample` (src/sampling/source.rs): shared sample payload plus
playback cursor. -/
structure RegistrySample where
  name : String
  data : SampleDataM
  cursor : Cursor
deriving DecidableEq

namespace RegistrySample

/-- `RegistrySample::new`: cursor built over `data.frame_count`. -/
def new (name : String) (data : SampleDataM) (b0 e0 : ℚ) : RegistrySample :=
  { name := name, data := data, cursor := Cursor.new data.frame_count b0 e0 }

/-- `RegistrySample::is_head`: `frame_count < total_frames`. -/
def is_head (rs : RegistrySample) : Bool :=
  decide (rs.data.frame_count < rs.data.total_frames)

/-- `RegistrySample::upgrade` (src/sampling/source.rs:33-41): swap in the
new payload and rescale the cursor range iff the frame count changed. -/
def upgrade (rs : RegistrySample) (new_data : SampleDataM) : RegistrySample :=
  let old_fc := rs.data.frame_count
  let new_fc := new_data.frame_count
  let rs1 := { rs with data := new_data }
  if new_fc ≠ old_fc
  then { rs1 with cursor := rs1.cursor.upgrade_frame_count old_fc new_fc }
  else rs1

/-- `RegistrySample::advance`. -/
def advance (rs : RegistrySample) (speed : ℚ) : RegistrySample :=
  { rs with cursor := rs.cursor.advance speed }

end RegistrySample

/-- A head preload: 10 frames present of a 20-frame file. -/
def headData : SampleDataM := { frame_count := 10, total_frames := 20 }

/-- The fully decoded file: all 20 frames present. -/
def fullData : SampleDataM := { frame_count := 20, total_frames := 20 }

/-- A voice's sample source playing the head preload, advanced to frame 5 —
halfway through the 10-frame playable region. -/
def rsPlaying : RegistrySample :=
  (RegistrySample.new "kick" headData 0 1).advance 5

/-- The `f32` value of `std::f32::consts::PI` (bit pattern 0x40490FDB),
exactly. -/
def PI32 : ℚ := 13176795 / 4194304

/-- `fastmath::sinf` numerator constant C3 (src/dsp/fastmath.rs). -/
def SINF_C3 : ℚ := -(2363 / 18183)

/-- `fastmath::sinf` numerator constant C5. -/
def SINF_C5 : ℚ := 12671 / 4363920

/-- `fastmath::sinf` denominator constant C2. -/
def SINF_C2 : ℚ := 445 / 12122

/-- `fastmath::sinf` denominator constant C4. -/
def SINF_C4 : ℚ := 601 / 872784

/-- `fastmath::sinf` denominator constant C6. -/
def SINF_C6 : ℚ := 121 / 16662240

/-- `fastmath::sinf` (src/dsp/fastmath.rs:172-187): fold the argument onto a
triangle wave in [-1, 1], rescale to [-π/2, π/2], then evaluate a Padé-style
rational approximation (C1 = 1).  `f32` rounding is idealized to exact
rational arithmetic. -/
def sinf (x : ℚ) : ℚ :=
  let y := 4 * |x * (1 / 2 / PI32) -
    ((⌊x * (1 / 2 / PI32) + 3 / 4⌋ : ℤ) : ℚ) + 1 / 4| - 1
  let z := y * (PI32 / 2)
  let zz := z * z
  let num := z * (1 + zz * (SINF_C3 + zz * SINF_C5))
  let den := 1 + zz * (SINF_C2 + zz * (SINF_C4 + zz * SINF_C6))
  num / den

/-- `fastmath::cosf`: `sinf(x + 0.5 * PI)`. -/
def cosf (x : ℚ) : ℚ := sinf (x + 1 / 2 * PI32)

/-- The panning stage of `Voice::process` (src/voice/mod.rs:744-749):
`if pan != 0.5 { ch[0] *= cosf(pan*PI/2); ch[1] *= sinf(pan*PI/2) }`. -/
def applyPan (pan l r : ℚ) : ℚ × ℚ :=
  if pan ≠ 1 / 2 then
    (l * cosf (pan * PI32 / 2), r * sinf (pan * PI32 / 2))
  else (l, r)

/-- `AdsrState` (src/dsp/envelope.rs:42-53). -/
inductive AdsrState where
  | Off
  | Attack
  | Decay
  | Sustain
  | Release
deriving DecidableEq

/-- `Adsr` (src/dsp/envelope.rs:65-83) with its `Default` values; the curve
exponents are fixed at 2.0 and never mutated anywhere in the source. -/
structure Adsr where
  state : AdsrState := .Off
  start_time : ℚ := 0
  start_val : ℚ := 0
  attack_curve : ℚ := 2
  decay_curve : ℚ := 2
deriving DecidableEq

/-- `f32` division as it feeds `lerp` inside `Adsr::update`: division by
zero gives ±∞ for a nonzero numerator (represented by `±f64MAX`; only its
being outside [0, 1] matters downstream, since `lerp` clamps), and 0/0 (NaN
in `f32`) is mapped to 0.  The strictly-monotone-time hypothesis of the
envelope theorem keeps the 0/0 corner unreachable, matching the source. -/
def fdiv (n d : ℚ) : ℚ :=
  if d = 0 then (if 0 < n then f64MAX else if n < 0 then -f64MAX else 0)
  else n / d

/-- `lerp` (src/dsp/envelope.rs:23-38): clamp the abscissa to [0, 1], then
interpolate with a curved profile; `pw` stands for `fastmath::powf`, kept
abstract (the bound theorem assumes only that it maps (0,1) × (0,∞) into
[0, 1], which the idealized power function satisfies). -/
def lerp (pw : ℚ → ℚ → ℚ) (x y0 y1 e : ℚ) : ℚ :=
  if x ≤ 0 then y0
  else if 1 ≤ x then y1
  else y0 + (y1 - y0) *
    (if e = 0 then x else if 0 < e then pw x e else 1 - pw (1 - x) (-e))

/-- `Adsr::update` (src/dsp/envelope.rs:112-178), one call of the envelope
state machine; returns the new state and the output value. -/
def Adsr.update (pw : ℚ → ℚ → ℚ) (a : Adsr)
    (time gate attack decay sustain release : ℚ) : Adsr × ℚ :=
  match a.state with
  | .Off =>
    if 0 < gate then
      ({ a with state := .Attack, start_time := time, start_val := 0 }, 0)
    else (a, 0)
  | .Attack =>
    if attack < time - a.start_time then
      ({ a with state := .Decay, start_time := time }, 1)
    else
      (a, lerp pw (fdiv (time - a.start_time) attack) a.start_val 1
        a.attack_curve)
  | .Decay =>
    if gate ≤ 0 then
      ({ a with
          state := .Release
          start_time := time
          start_val := lerp pw (fdiv (time - a.start_time) decay) 1 sustain
            (-a.decay_curve) },
        lerp pw (fdiv (time - a.start_time) decay) 1 sustain (-a.decay_curve))
    else if decay < time - a.start_time then
      ({ a with state := .Sustain, start_time := time }, sustain)
    else
      (a, lerp pw (fdiv (time - a.start_time) decay) 1 sustain (-a.decay_curve))
  | .Sustain =>
    if gate ≤ 0 then
      ({ a with
          state := .Release
          start_time := time
          start_val := sustain },
        sustain)
    else (a, sustain)
  | .Release =>
    if release < time - a.start_time then
      ({ a with state := .Off }, 0)
    else if 0 < gate then
      ({ a with
          state := .Attack
          start_time := time
          start_val := lerp pw (fdiv (time - a.start_time) release)
            a.start_val 0 (-a.decay_curve) },
        lerp pw (fdiv (time - a.start_time) release) a.start_val 0
          (-a.decay_curve))
    else
      (a, lerp pw (fdiv (time - a.start_time) release) a.start_val 0
        (-a.decay_curve))

/-- One call's worth of arguments to `Adsr::update`, in source order. -/
structure AdsrArgs where
  time : ℚ
  gate : ℚ
  attack : ℚ
  decay : ℚ
  sustain : ℚ
  release : ℚ
deriving DecidableEq

/-- Folds a sequence of `Adsr::update` calls, collecting the outputs. -/
def Adsr.run (pw : ℚ → ℚ → ℚ) (a : Adsr) : List AdsrArgs → List ℚ × Adsr
  | [] => ([], a)
  | c :: cs =>
    ((Adsr.update pw a c.time c.gate c.attack c.decay c.sustain c.release).2 ::
        (Adsr.run pw
          (Adsr.update pw a c.time c.gate c.attack c.decay c.sustain
            c.release).1 cs).1,
      (Adsr.run pw
        (Adsr.update pw a c.time c.gate c.attack c.decay c.sustain
          c.release).1 cs).2)

/-- `EnvelopeParams` (src/dsp/envelope.rs:186-200). -/
structure EnvelopeParams where
  env : ℚ
  att : ℚ
  dec : ℚ
  sus : ℚ
  rel : ℚ
  active : Bool
deriving DecidableEq

/-- `init_envelope` (src/dsp/envelope.rs:222-256): defaults plus the
sustain-inference table.  Note the sustain clamp is one-sided:
`s.min(1.0)`. -/
def init_envelope (env att dec sus rel : Option ℚ) : EnvelopeParams :=
  if env = none ∧ att = none ∧ dec = none ∧ sus = none ∧ rel = none then
    { env := 1, att := 3 / 1000, dec := 0, sus := 1, rel := 5 / 1000,
      active := false }
  else
    { env := env.getD 1, att := att.getD (3 / 1000), dec := dec.getD 0,
      sus :=
        match sus, att, dec with
        | some s, _, _ => min s 1
        | none, some _, none => 1
        | none, none, some _ => 0
        | none, some _, some _ => 0
        | _, _, _ => 1,
      rel := rel.getD (5 / 1000), active := true }

/-- The state invariant maintained across `Adsr::update` calls: the retrigger
base value stays inside [0, 1] and the curve exponents are the constant 2. -/
def AdsrInv (a : Adsr) : Prop :=
  0 ≤ a.start_val ∧ a.start_val ≤ 1 ∧ a.attack_curve = 2 ∧ a.decay_curve = 2

/-- A concrete stand-in for `powf` used by witnesses and counterexamples:
squaring, the idealized value of `powf(x, 2.0)`. -/
def pwSq : ℚ → ℚ → ℚ := fun x _ => x * x

/-- Update-call sequence deriving from parsed events with a sustain of -0.5 (command key `sustain`):
times strictly increase, gate stays high, attack = decay = release = 1. -/
def adsrCalls : List AdsrArgs :=
  [{ time := 0, gate := 1, attack := 1, decay := 1, sustain := -(1 / 2),
     release := 1 },
   { time := 2, gate := 1, attack := 1, decay := 1, sustain := -(1 / 2),
     release := 1 },
   { time := 4, gate := 1, attack := 1, decay := 1, sustain := -(1 / 2),
     release := 1 }]

/-- Update-call sequence for the C8 witness: sustain 1/2, strictly
increasing times. -/
def wCalls : List AdsrArgs :=
  [{ time := 0, gate := 1, attack := 1 / 100, decay := 1 / 10,
     sustain := 1 / 2, release := 1 / 5 },
   { time := 1 / 100, gate := 1, attack := 1 / 100, decay := 1 / 10,
     sustain := 1 / 2, release := 1 / 5 }]

/-- An output buffer, indexed by flat sample index.  Mutation is modelled as
function update, so a position the code never writes keeps its arbitrary
initial value — full write coverage is part of what the block theorem
proves. -/
def Buf : Type := Nat → ℚ

/-- A single buffer store, `output[k] = v`. -/
def store (b : Buf) (k : Nat) (v : ℚ) : Buf :=
  fun j => if j = k then v else b j

/-- An accumulating store, `output[k] += v`. -/
def addAt (b : Buf) (k : Nat) (v : ℚ) : Buf :=
  store b k (b k + v)

/-- One live voice's contribution to the current sample after
`Voice::process`: its stereo output `ch` and its `params.orbit`.  The voice
DSP itself is abstracted — the buffer claims hold for every contribution
whatsoever, so they hold in particular for the real one. -/
structure VoiceOut where
  ch0 : ℚ
  ch1 : ℚ
  orbit : Nat

/-- The final per-channel write of `gen_sample` (src/lib.rs:854-856):
`output[base_idx + c] = (output[base_idx + c] * 0.5).clamp(-1.0, 1.0)`. -/
def clampStep (base : Nat) (b : Buf) (c : Nat) : Buf :=
  store b (base + c) (qclamp (b (base + c) * (1 / 2)) (-1) 1)

/-- `Engine::gen_sample` (src/lib.rs:733-857) restricted to its writes into
the output buffer: zero the sample's channels, add each live voice's stereo
output at its orbit's channel pair (`orbit % num_orbits % num_pairs * 2`),
add each orbit's summed returns (delay+verb+comb+fb, abstracted into a
stereo pair, at `orbit_idx % num_pairs * 2`), then scale by 0.5 and clamp
into [-1, 1].  The send-accumulator and orbit-parameter updates touch no
buffer and are omitted; `voices` and `orbitOuts` are universally
quantified stand-ins for the per-sample DSP results. -/
def gen_sample (channels numOrbits : Nat) (voices : List VoiceOut)
    (orbitOuts : List (ℚ × ℚ)) (base : Nat) (buf : Buf) : Buf :=
  let numPairs := channels / 2
  let buf1 := (List.range channels).foldl (fun b c => store b (base + c) 0) buf
  let buf2 := voices.foldl (fun b v =>
    addAt (addAt b (base + v.orbit % numOrbits % numPairs * 2) v.ch0)
      (base + v.orbit % numOrbits % numPairs * 2 + 1) v.ch1) buf1
  let buf3 := orbitOuts.enum.foldl (fun b oi =>
    addAt (addAt b (base + oi.1 % numPairs * 2) oi.2.1)
      (base + oi.1 % numPairs * 2 + 1) oi.2.2) buf2
  (List.range channels).foldl (clampStep base) buf3

/-- `Engine::process_block` (src/lib.rs:859-889) restricted to its buffer
writes: `samples = output.len() / output_channels`, then one `gen_sample`
per sample index at `base_idx = i * output_channels`.  Schedule servicing
and the tick/time bookkeeping write nothing into the buffer; `steps i`
provides sample `i`'s voice contributions and orbit returns. -/
def process_block (channels numOrbits : Nat)
    (steps : Nat → List VoiceOut × List (ℚ × ℚ)) (outputLen : Nat)
    (buf : Buf) : Buf :=
  (List.range (outputLen / channels)).foldl
    (fun b i =>
      gen_sample channels numOrbits (steps i).1 (steps i).2 (i * channels) b)
    buf

/-- `lcg` (src/voice/modulation.rs:5-8):
`seed.wrapping_mul(1103515245).wrapping_add(12345)` on `u32`. -/
def lcg (seed : Nat) : Nat := (seed * 1103515245 + 12345) % 2 ^ 32

/-- `ModCurve` (src/voice/modulation.rs:11-15). -/
inductive ModCurve where
  | Linear
  | Exponential
  | Smooth
deriving DecidableEq

/-- `ModShape` (src/voice/modulation.rs:18-26). -/
inductive ModShape where
  | Sine
  | Triangle
  | Saw
  | Square
  | Hold
  | Rand
  | Drunk
deriving DecidableEq

/-- `ModSegment` (src/voice/modulation.rs:29-33). -/
structure ModSegment where
  target : ℚ
  freq : ℚ
  curve : ModCurve
deriving DecidableEq

/-- The fill value of the parse-time segment array
(`[ModSegment { target: 0.0, freq: 1.0, curve: Linear }; 4]`). -/
def segFill : ModSegment := { target := 0, freq := 1, curve := .Linear }

/-- `ModChain` (src/voice/modulation.rs:36-49); the fixed-size segment
array becomes a list read with the fill value beyond its length. -/
inductive ModChain where
  | Oscillate (mn mx freq : ℚ) (shape : ModShape)
  | Transition (start : ℚ) (segments : List ModSegment) (count : Nat)
      (looping : Bool)
deriving DecidableEq

/-- `ParamId` (src/voice/modulation.rs:163-227), all 63 variants. -/
inductive ParamId where
  | Freq | Gain | Postgain | Pan | Speed | Detune | Pw | Sub
  | Harmonics | Timbre | Morph | Scan
  | Lpf | Lpq | Hpf | Hpq | Bpf | Bpq
  | Llpf | Llpq | Lhpf | Lhpq | Lbpf | Lbpq
  | Fm | Fmh | Fm2 | Fm2h | Fmfb
  | Am | Amdepth | Rm | Rmdepth | Vib | Vibmod
  | Phaser | Phaserdepth | Phasersweep | Phasercenter
  | Flanger | Flangerdepth | Flangerfeedback
  | Smear | Smearfreq | Smearfb
  | Chorus | Chorusdepth | Chorusdelay
  | Fold | Crush | Coarse | Distort
  | Eqlo | Eqmid | Eqhi | Tilt | Width | Haas
  | Delay | Verb | Comb | Wrap | Feedback
deriving DecidableEq

/-- `ParamMod` (src/voice/modulation.rs:229-238). -/
structure ParamMod where
  chain : ModChain
  phase : ℚ
  segment_idx : Nat
  prev_rand : ℚ
  next_rand : ℚ
  seed : Nat
  drunk_pos : ℚ
deriving DecidableEq

/-- `ParamMod::rand` (src/voice/modulation.rs:270-273): advance the seed by
one LCG step, emit `((seed >> 16) & 0x7fff) / 32767`. -/
def ParamMod.rand (m : ParamMod) : ℚ × ParamMod :=
  (((lcg m.seed >>> 16 &&& 0x7fff : Nat) : ℚ) / 32767,
    { m with seed := lcg m.seed })

/-- `ParamMod::new` (src/voice/modulation.rs:255-268): zeroed state, then
two `rand` draws for `prev_rand` and `next_rand`. -/
def ParamMod.new (chain : ModChain) (seed : Nat) : ParamMod :=
  let m0 : ParamMod :=
    { chain := chain, phase := 0, segment_idx := 0, prev_rand := 0,
      next_rand := 0, seed := seed, drunk_pos := 1 / 2 }
  let r1 := m0.rand
  let m1 := { r1.2 with prev_rand := r1.1 }
  let r2 := m1.rand
  { r2.2 with next_rand := r2.1 }

/-- `interpolate` (src/voice/modulation.rs:386-401); `elog` abstracts the
fastmath composition `exp2f(t * log2f(r))` of the exponential curve
(bit-level float code, irrelevant to the determinism claim); `src`/`dst`
stand for the source's `from`/`to` (Lean keywords). -/
def interpolate (elog : ℚ → ℚ → ℚ) (src dst t : ℚ) : ModCurve → ℚ
  | .Linear => src + (dst - src) * t
  | .Exponential =>
    if 0 < src ∧ 0 < dst then src * elog t (dst / src)
    else src + (dst - src) * t * t
  | .Smooth => src + (dst - src) * ((1 - cosf (t * PI32)) * (1 / 2))

/-- `ParamMod::tick_oscillate` (src/voice/modulation.rs:287-343); the phase
has already been advanced by `tick`. -/
def ParamMod.tick_oscillate (m : ParamMod) (mn mx : ℚ) (shape : ModShape) :
    ℚ × ParamMod :=
  match shape with
  | .Sine =>
    let m := if 1 ≤ m.phase then { m with phase := m.phase - 1 } else m
    (mn + (mx - mn) * (1 / 2) + (mx - mn) * (1 / 2) *
      sinf (m.phase * 2 * PI32), m)
  | .Triangle =>
    let m := if 1 ≤ m.phase then { m with phase := m.phase - 1 } else m
    ((if m.phase < 1 / 2 then mn + m.phase * 2 * (mx - mn)
      else mn + (2 - m.phase * 2) * (mx - mn)), m)
  | .Saw =>
    let m := if 1 ≤ m.phase then { m with phase := m.phase - 1 } else m
    (mn + m.phase * (mx - mn), m)
  | .Square =>
    let m := if 1 ≤ m.phase then { m with phase := m.phase - 1 } else m
    ((if m.phase < 1 / 2 then mn else mx), m)
  | .Rand =>
    let m := if 1 ≤ m.phase then
        let mA := { m with phase := m.phase - 1, prev_rand := m.next_rand }
        let r := mA.rand
        { r.2 with next_rand := r.1 }
      else m
    (mn + (m.prev_rand + (m.next_rand - m.prev_rand) *
      ((1 - cosf (m.phase * PI32)) * (1 / 2))) * (mx - mn), m)
  | .Hold =>
    let m := if 1 ≤ m.phase then
        let mA := { m with phase := m.phase - 1 }
        let r := mA.rand
        { r.2 with prev_rand := r.1 }
      else m
    (mn + m.prev_rand * (mx - mn), m)
  | .Drunk =>
    let m := if 1 ≤ m.phase then
        let mA := { m with phase := m.phase - 1 }
        let r := mA.rand
        { r.2 with
            drunk_pos :=
              qclamp (r.2.drunk_pos + (r.1 - 1 / 2) * (3 / 10)) 0 1 }
      else m
    (mn + m.drunk_pos * (mx - mn), m)

/-- The `loop` of `ParamMod::tick_transition`
(src/voice/modulation.rs:345-383) as fuel recursion; each `continue` lowers
`phase` by one, so the fuel chosen by `tick` makes the fuel-exhausted arm
unreachable. -/
def ParamMod.transition_loop (elog : ℚ → ℚ → ℚ) (start : ℚ)
    (segments : List ModSegment) (count : Nat) (looping : Bool) (isr : ℚ) :
    Nat → Bool → ParamMod → ℚ × ParamMod
  | 0, _, m => (0, m)
  | fuel + 1, first, m =>
    if count ≤ m.segment_idx then
      ((segments.getD (count - 1) segFill).target, m)
    else
      let seg := segments.getD m.segment_idx segFill
      let m := if first then { m with phase := m.phase + seg.freq * isr }
        else m
      if 1 ≤ m.phase then
        if m.segment_idx + 1 < count then
          ParamMod.transition_loop elog start segments count looping isr fuel
            false { m with phase := m.phase - 1,
                           segment_idx := m.segment_idx + 1 }
        else if looping then
          ParamMod.transition_loop elog start segments count looping isr fuel
            false { m with phase := m.phase - 1, segment_idx := 0 }
        else
          (seg.target, { m with phase := 1 })
      else
        ((interpolate elog
            (if m.segment_idx = 0 then start
             else (segments.getD (m.segment_idx - 1) segFill).target)
            seg.target m.phase seg.curve), m)

/-- `ParamMod::tick` (src/voice/modulation.rs:275-285). -/
def ParamMod.tick (elog : ℚ → ℚ → ℚ) (m : ParamMod) (isr : ℚ) :
    ℚ × ParamMod :=
  match m.chain with
  | .Oscillate mn mx freq shape =>
    ParamMod.tick_oscillate { m with phase := m.phase + freq * isr } mn mx
      shape
  | .Transition start segments count looping =>
    ParamMod.transition_loop elog start segments count looping isr
      ((⌈m.phase + (segments.getD m.segment_idx segFill).freq * isr⌉).toNat
        + 2)
      true m

/-- `MAX_PARAM_MODS` (src/voice/mod.rs:25). -/
def MAX_PARAM_MODS : Nat := 8

/-- The RNG-relevant slice of `Voice` (src/voice/mod.rs): the voice seed —
the constant 123456789 in `Voice::default` (src/voice/mod.rs:147) — and the
inline modulator table (first `param_mod_count` entries of the array). -/
structure VoiceRng where
  seed : Nat := 123456789
  param_mods : List (ParamId × ParamMod) := []
deriving DecidableEq

/-- `Voice::set_mod` (src/voice/mod.rs:226-240): replace the entry with the
same `ParamId`, else append below capacity; either way the new `ParamMod`
is seeded from the voice seed, which then advances by one LCG step. -/
def VoiceRng.set_mod (v : VoiceRng) (id : ParamId) (chain : ModChain) :
    VoiceRng :=
  match v.param_mods.findIdx? (fun pm => pm.1 == id) with
  | some i =>
    { v with
        param_mods := v.param_mods.set i (id, ParamMod.new chain v.seed)
        seed := lcg v.seed }
  | none =>
    if v.param_mods.length < MAX_PARAM_MODS then
      { v with
          param_mods := v.param_mods ++ [(id, ParamMod.new chain v.seed)]
          seed := lcg v.seed }
    else v

/-- The fold inside `Voice::apply_mods` (src/voice/mod.rs:242-248):
tick each modulator, collecting the `(ParamId, value)` writes. -/
def applyModsAux (elog : ℚ → ℚ → ℚ) (isr : ℚ) :
    List (ParamId × ParamMod) →
      List (ParamId × ℚ) × List (ParamId × ParamMod)
  | [] => ([], [])
  | (id, m) :: rest =>
    ((id, (ParamMod.tick elog m isr).1) ::
        (applyModsAux elog isr rest).1,
      (id, (ParamMod.tick elog m isr).2) ::
        (applyModsAux elog isr rest).2)

/-- `Voice::apply_mods` on the reduced voice state. -/
def VoiceRng.apply_mods (elog : ℚ → ℚ → ℚ) (v : VoiceRng) (isr : ℚ) :
    List (ParamId × ℚ) × VoiceRng :=
  ((applyModsAux elog isr v.param_mods).1,
    { v with param_mods := (applyModsAux elog isr v.param_mods).2 })

/-- An operation on the modulator subsystem: install a modulator
(`set_mod`, from event dispatch) or tick all modulators one audio sample
(`apply_mods`). -/
inductive VoiceOp where
  | setMod (id : ParamId) (chain : ModChain)
  | tickMods (isr : ℚ)

/-- Runs a sequence of modulator operations, concatenating every parameter
write they produce. -/
def runVoiceOps (elog : ℚ → ℚ → ℚ) :
    List VoiceOp → VoiceRng → List (ParamId × ℚ) × VoiceRng
  | [], v => ([], v)
  | .setMod id chain :: ops, v => runVoiceOps elog ops (v.set_mod id chain)
  | .tickMods isr :: ops, v =>
    ((v.apply_mods elog isr).1 ++
        (runVoiceOps elog ops (v.apply_mods elog isr).2).1,
      (runVoiceOps elog ops (v.apply_mods elog isr).2).2)

/-- A concrete stand-in for the abstracted exponential-curve function. -/
def elogOne : ℚ → ℚ → ℚ := fun _ _ => 1

/-- Concrete op sequence for the C10 witness: install a random-hold
modulator on `freq`, then tick one sample at 1/48000. -/
def wOps : List VoiceOp :=
  [.setMod .Freq (.Oscillate 0 1 1 .Hold), .tickMods (1 / 48000)]

section ScheduleLemmas

/-- Inserting an event at its `partition_point` keeps the schedule sorted. -/
theorem sorted_insert (s : List EventM) (e : EventM) (h : List.Pairwise keyLe s) :
    List.Pairwise keyLe
      (s.takeWhile (fun x => decide (schedKey x < schedKey e)) ++
        e :: s.dropWhile (fun x => decide (schedKey x < schedKey e))) := by
  induction s with
  | nil => simp [keyLe]
  | cons a s ih =>
    rw [List.pairwise_cons] at h
    obtain ⟨ha, hs⟩ := h
    by_cases hp : schedKey a < schedKey e
    · rw [List.takeWhile_cons_of_pos (by simpa using hp),
        List.dropWhile_cons_of_pos (by simpa using hp), List.cons_append,
        List.pairwise_cons]
      refine ⟨?_, ih hs⟩
      intro b hb
      rcases List.mem_append.mp hb with hb | hb
      · exact ha b ((List.takeWhile_prefix _).subset hb)
      · rcases List.mem_cons.mp hb with rfl | hb
        · exact le_of_lt hp
        · exact ha b ((List.dropWhile_suffix _).subset hb)
    · rw [List.takeWhile_cons_of_neg (by simpa using hp),
        List.dropWhile_cons_of_neg (by simpa using hp), List.nil_append,
        List.pairwise_cons]
      refine ⟨?_, List.pairwise_cons.mpr ⟨ha, hs⟩⟩
      intro b hb
      rcases List.mem_cons.mp hb with rfl | hb
      · exact le_of_not_lt hp
      · exact le_trans (le_of_not_lt hp) (ha b hb)

/-- `Schedule.push` preserves sortedness. -/
theorem sorted_push (s : List EventM) (e : EventM) (h : List.Pairwise keyLe s) :
    List.Pairwise keyLe (Schedule.push s e) := by
  unfold Schedule.push
  split
  · exact h
  · exact sorted_insert s e h

/-- `Schedule.pop_front` preserves sortedness. -/
theorem sorted_pop (s : List EventM) (h : List.Pairwise keyLe s) :
    List.Pairwise keyLe (Schedule.pop_front s).2 := by
  cases s with
  | nil => exact h
  | cons a s => exact (List.pairwise_cons.mp h).2

/-- Any sequence of schedule operations preserves sortedness. -/
theorem sorted_applyOps (ops : List SchedOp) :
    ∀ s : List EventM, List.Pairwise keyLe s →
      List.Pairwise keyLe (applySchedOps ops s) := by
  induction ops with
  | nil => intro s h; exact h
  | cons op ops ih =>
    intro s h
    cases op with
    | push e => exact ih _ (sorted_push s e h)
    | pop => exact ih _ (sorted_pop s h)

/-- Everything surviving `dropWhile (key < key e)` in a sorted schedule has
key at least `key e`. -/
theorem dropWhile_key_ge (s : List EventM) (e : EventM)
    (hs : List.Pairwise keyLe s) :
    ∀ x ∈ s.dropWhile (fun x => decide (schedKey x < schedKey e)),
      schedKey e ≤ schedKey x := by
  induction s with
  | nil => simp
  | cons a s ih =>
    rw [List.pairwise_cons] at hs
    by_cases hp : schedKey a < schedKey e
    · rw [List.dropWhile_cons_of_pos (by simpa using hp)]
      exact ih hs.2
    · rw [List.dropWhile_cons_of_neg (by simpa using hp)]
      intro x hx
      rcases List.mem_cons.mp hx with rfl | hx
      · exact le_of_not_lt hp
      · exact le_trans (le_of_not_lt hp) (hs.1 x hx)

end ScheduleLemmas

/-- C2: For every sequence of `Schedule::push` and `Schedule::pop_front`
operations starting from an empty schedule, adjacent stored events satisfy
`events[i].time ≤ events[i+1].time` (times compared through the sort key
`time.unwrap_or(f64::MAX)` used by the code). -/
theorem schedule_sorted_after_ops (ops : List SchedOp) :
    List.Chain' (fun a b => schedKey a ≤ schedKey b)
      (applySchedOps ops Schedule.new) :=
  List.Pairwise.chain' (sorted_applyOps ops Schedule.new (by simp [Schedule.new]))

/-- C3 counterexample: two events pushed with equal `time` are popped in
reverse insertion order, not FIFO.  `evA` is pushed first, `evB` second
(same time 1 s), yet `pop_front` returns `evB` first. -/
theorem schedule_fifo_counterexample :
    (Schedule.pop_front (Schedule.push (Schedule.push Schedule.new evA) evB)).1
        = some evB ∧ evB ≠ evA := by
  constructor
  · rfl
  · decide

/-- C3 (amended): events are popped in non-decreasing time order, but within
equal times the most recently pushed event is popped first (LIFO):
`push` inserts the new event before every already-stored event whose key is
not strictly smaller — in particular before all equal-time events. -/
theorem schedule_push_equal_time_lifo (s : List EventM) (e : EventM)
    (hs : List.Pairwise keyLe s) (hlen : s.length < MAX_EVENTS) :
    ∃ l r, Schedule.push s e = l ++ e :: r ∧
      (∀ x ∈ l, schedKey x < schedKey e) ∧
      (∀ x ∈ r, schedKey e ≤ schedKey x) := by
  refine ⟨s.takeWhile (fun x => decide (schedKey x < schedKey e)),
    s.dropWhile (fun x => decide (schedKey x < schedKey e)), ?_, ?_, ?_⟩
  · unfold Schedule.push
    rw [if_neg (Nat.not_le.mpr hlen)]
  · intro x hx
    simpa using List.mem_takeWhile_imp hx
  · exact dropWhile_key_ge s e hs

/-- C3 witness: the amended LIFO statement applied to the concrete
equal-time events `evA`, `evB`. -/
theorem schedule_push_equal_time_lifo_witness :
    List.Pairwise keyLe [evA] ∧ [evA].length < MAX_EVENTS ∧
      (∃ l r, Schedule.push [evA] evB = l ++ evB :: r ∧
        (∀ x ∈ l, schedKey x < schedKey evB) ∧
        (∀ x ∈ r, schedKey evB ≤ schedKey x)) :=
  ⟨by simp, by decide,
    schedule_push_equal_time_lifo [evA] evB (by simp) (by decide)⟩

/-- C5 counterexample: an event that is *exactly* 20 ms late is popped but
not dispatched.  `lateEvent` fires at t = 0 and the engine clock is 1/50 s,
so `diff = 0.02` and the code's `diff < 0.02` test fails — the claim's
"dispatched unless more than 20 ms late" predicts dispatch here. -/
theorem process_schedule_boundary_counterexample :
    (processScheduleAux 2 stBoundary).1.popped = [lateEvent] ∧
      (processScheduleAux 2 stBoundary).1.dispatched = [] := by
  norm_num [processScheduleAux, stBoundary, lateEvent, stepState, CATCHUP_LIMIT]

/-- C5 (amended): on each sample the engine pops every scheduled event whose
time is ≤ the current engine time; a popped event is dispatched exactly when
it is *less than* 20 ms late (an event at least 20 ms late is skipped); in
either case an event carrying a repeat period is re-pushed with its time
increased by the repeat.  Stated over the fuel-indexed loop: the popped
events were all due, the dispatched log is the popped log filtered by the
catch-up test, the repush log is the popped log's repeat copies, sortedness
is preserved, and on normal exit the head of the schedule is in the
future. -/
theorem process_schedule_spec (fuel : Nat) (st : SchedRun)
    (hs : List.Pairwise keyLe st.schedule) :
    ∃ newp : List EventM,
      (processScheduleAux fuel st).1.popped = st.popped ++ newp ∧
      (∀ ev ∈ newp, ∃ t, ev.time = some t ∧ t ≤ st.time) ∧
      (processScheduleAux fuel st).1.dispatched
        = st.dispatched ++ newp.filter (dueFilter st.time) ∧
      (processScheduleAux fuel st).1.repushed
        = st.repushed ++ newp.filterMap repushOf ∧
      List.Pairwise keyLe (processScheduleAux fuel st).1.schedule ∧
      (processScheduleAux fuel st).1.time = st.time ∧
      ((processScheduleAux fuel st).2 = true →
        ∀ t, Schedule.peek_time (processScheduleAux fuel st).1.schedule = some t →
          st.time < t) := by
  induction fuel generalizing st with
  | zero =>
    exact ⟨[], by simp [processScheduleAux], by simp,
      by simp [processScheduleAux], by simp [processScheduleAux],
      by simpa [processScheduleAux] using hs, by simp [processScheduleAux],
      by simp [processScheduleAux]⟩
  | succ fuel ih =>
    match hsched : st.schedule with
    | [] =>
      have hres : processScheduleAux (fuel + 1) st = (st, true) := by
        simp [processScheduleAux, hsched]
      refine ⟨[], by simp [hres], by simp, by simp [hres], by simp [hres],
        by simpa [hres] using hs, by simp [hres], ?_⟩
      intro _ t' hpeek
      rw [hres] at hpeek
      simp [Schedule.peek_time, hsched] at hpeek
    | ev :: rest =>
      have hcons : List.Pairwise keyLe (ev :: rest) := by
        rw [← hsched]; exact hs
      match hev : ev.time with
      | none =>
        have hres : processScheduleAux (fuel + 1) st = (st, true) := by
          simp [processScheduleAux, hsched, hev]
        refine ⟨[], by simp [hres], by simp, by simp [hres], by simp [hres],
          by simpa [hres] using hs, by simp [hres], ?_⟩
        intro _ t' hpeek
        rw [hres] at hpeek
        simp [Schedule.peek_time, hsched, hev] at hpeek
      | some t =>
        by_cases ht : t ≤ st.time
        · -- the head event is due: pop it and recurse
          have hrest : List.Pairwise keyLe rest :=
            (List.pairwise_cons.mp hcons).2
          have hstep :
              processScheduleAux (fuel + 1) st =
                processScheduleAux fuel (stepState st ev rest t) := by
            simp [processScheduleAux, hsched, hev, ht]
          have hsort' : List.Pairwise keyLe (stepState st ev rest t).schedule := by
            simp only [stepState]
            cases ev.rep with
            | none => exact hrest
            | some rp => exact sorted_push rest _ hrest
          obtain ⟨newp, h1, h2, h3, h4, h5, h6, h7⟩ :=
            ih (stepState st ev rest t) hsort'
          refine ⟨ev :: newp, ?_, ?_, ?_, ?_, ?_, ?_, ?_⟩
          · rw [hstep, h1]
            simp [stepState]
          · intro x hx
            rcases List.mem_cons.mp hx with rfl | hx
            · exact ⟨t, hev, ht⟩
            · exact h2 x hx
          · rw [hstep, h3]
            simp only [stepState, List.filter_cons, dueFilter, hev,
              Option.getD_some]
            by_cases hd : st.time - t < CATCHUP_LIMIT <;>
              simp [hd, List.append_assoc]
          · rw [hstep, h4]
            simp only [stepState, List.filterMap_cons]
            cases hrep : ev.rep <;>
              simp [repushOf, hev, hrep, List.append_assoc]
          · rw [hstep]; exact h5
          · rw [hstep]; exact h6
          · rw [hstep]
            intro hdone t' hpeek
            exact h7 hdone t' hpeek
        · -- the head event is in the future: the loop exits
          have hdone : processScheduleAux (fuel + 1) st = (st, true) := by
            simp [processScheduleAux, hsched, hev, ht]
          refine ⟨[], by simp [hdone], by simp, by simp [hdone],
            by simp [hdone], by simpa [hdone] using hs, by simp [hdone], ?_⟩
          intro _ t' hpeek
          rw [hdone] at hpeek
          simp [Schedule.peek_time, hsched, hev] at hpeek
          cases hpeek
          exact lt_of_not_le ht

/-- C5 witness: the amended scheduler statement applied to a concrete sorted
one-event state (the event is 10 ms late, inside the catch-up window, and
carries a repeat). -/
theorem process_schedule_spec_witness :
    List.Pairwise keyLe stWitness.schedule ∧
      (processScheduleAux 2 stWitness).1.time = stWitness.time := by
  obtain ⟨newp, -, -, -, -, -, h6, -⟩ :=
    process_schedule_spec 2 stWitness (by simp [stWitness])
  exact ⟨by simp [stWitness], h6⟩

/-- C4 counterexample: evaluating the `panic` command zeroes
`active_voices` but does not touch the orbits, so an orbit whose send
accumulator held 1/2 still holds 1/2 afterwards — the claim's "orbit send
accumulators all zero" is false. -/
theorem panic_sends_counterexample :
    (evaluate soundOkAll updId enginePanicEx evPanic).2.active_voices = 0 ∧
      (evaluate soundOkAll updId enginePanicEx evPanic).2.orbits = [orbitHot] ∧
      orbitHot.delay_send ≠ (0, 0) := by
  refine ⟨rfl, rfl, by norm_num [orbitHot, Prod.ext_iff]⟩

/-- C4 (amended): after evaluating the `panic` command, `active_voices = 0`
and everything else — orbits included — is unchanged; the orbit send
accumulators are instead zeroed at the start of every generated sample by
`Orbit::clear_sends` in `gen_sample`. -/
theorem panic_spec (soundOk : EventM → Bool)
    (upd : VoiceParamsM → EventM → VoiceParamsM) (e : EngineM) (ev : EventM)
    (hcmd : ev.cmd = some "panic") :
    evaluate soundOk upd e ev = (none, { e with active_voices := 0 }) ∧
      ∀ o : OrbitM, (OrbitM.clear_sends o).delay_send = (0, 0) ∧
        (OrbitM.clear_sends o).verb_send = (0, 0) ∧
        (OrbitM.clear_sends o).comb_send = (0, 0) := by
  constructor
  · simp [evaluate, hcmd, EngineM.panic, defaultCmd]
  · intro o
    exact ⟨rfl, rfl, rfl⟩

/-- C4 witness: the panic characterization applied to the concrete
saturated engine. -/
theorem panic_spec_witness :
    evPanic.cmd = some "panic" ∧
      evaluate soundOkAll updId enginePanicEx evPanic =
        (none, { enginePanicEx with active_voices := 0 }) :=
  ⟨rfl, (panic_spec soundOkAll updId enginePanicEx evPanic rfl).1⟩

/-- C6 counterexample: a play event carrying a cut group, dispatched when
`active_voices == max_voices` with no voice index, returns `None` but still
overwrites the gate parameter of the cut-matched live voice (1 → 0) — the
claim's "no existing voice's parameters are overwritten" is false. -/
theorem voice_exhaustion_cut_counterexample :
    (processEvent soundOkAll updId engineFull evCut).1 = none ∧
      ((processEvent soundOkAll updId engineFull evCut).2.voices.map
          fun v => v.params.gate) = [0] ∧
      (engineFull.voices.map fun v => v.params.gate) = [1] := by
  refine ⟨rfl, ?_, by simp [engineFull]⟩
  simp [processEvent, engineFull, evCut, soundOkAll, cutReleaseVoices,
    mapIdxFrom, releaseGate]

/-- C6 (amended): a play event dispatched when
`active_voices ≥ max_voices` with no explicit voice index returns `None` and
is dropped — no voice is allocated or stolen and no voice's parameters are
overwritten, *except* that the cut-group release step, which runs before
allocation, sets `gate` to 0 on every live voice in the event's cut group. -/
theorem voice_exhaustion_drops_event (soundOk : EventM → Bool)
    (upd : VoiceParamsM → EventM → VoiceParamsM) (e : EngineM) (ev : EventM)
    (hfull : e.max_voices ≤ e.active_voices) (hvoice : ev.voice = none) :
    (processEvent soundOk upd e ev).1 = none ∧
      (processEvent soundOk upd e ev).2.active_voices = e.active_voices ∧
      (processEvent soundOk upd e ev).2.max_voices = e.max_voices ∧
      (processEvent soundOk upd e ev).2.orbits = e.orbits ∧
      (processEvent soundOk upd e ev).2.schedule = e.schedule ∧
      (processEvent soundOk upd e ev).2.time = e.time ∧
      (processEvent soundOk upd e ev).2.voices =
        (match ev.cut with
         | some cut => cutReleaseVoices e.active_voices cut e.voices
         | none => e.voices) := by
  cases hsok : soundOk ev <;> cases hcut : ev.cut <;>
    simp [processEvent, hsok, hcut, hvoice, hfull]

/-- C6 witness: the drop-without-stealing statement applied to the concrete
saturated engine and a cut-free event. -/
theorem voice_exhaustion_drops_event_witness :
    engineFull.max_voices ≤ engineFull.active_voices ∧
      (processEvent soundOkAll updId engineFull evCut).1 = none :=
  ⟨by decide,
    (voice_exhaustion_drops_event soundOkAll updId engineFull evCut
      (by decide) rfl).1⟩

/-- C7 counterexample: upgrading a half-played head preload (10 frames, at
position 5, fraction 1/2 of the region) to the full 20-frame file leaves
`pos` at 5 while the region doubles, so the position's fraction of the
playable region becomes 1/4 — it is not preserved. -/
theorem cursor_upgrade_fraction_counterexample :
    rsPlaying.cursor.pos / rsPlaying.cursor.length = 1 / 2 ∧
      (rsPlaying.upgrade fullData).cursor.pos /
          (rsPlaying.upgrade fullData).cursor.length = 1 / 4 ∧
      (1 : ℚ) / 4 ≠ 1 / 2 := by
  refine ⟨?_, ?_, by norm_num⟩ <;>
    norm_num [rsPlaying, RegistrySample.upgrade, RegistrySample.new,
      RegistrySample.advance, Cursor.new, Cursor.advance,
      Cursor.upgrade_frame_count, Cursor.compute_range, headData, fullData,
      qclamp]

/-- C7 (amended): `upgrade_frame_count` rescales the playable region —
`start_pos` and `length` are both multiplied by `new_fc / old_fc`, so the
begin/end fractions of the region are preserved — while the cursor position
`pos` (frames from region start) is unchanged; the position's *fraction* of
the region is therefore not preserved when the frame count changes. -/
theorem cursor_upgrade_spec (c : Cursor) (old_fc new_fc : Nat)
    (hold : 0 < old_fc) (hsp : 0 ≤ c.start_pos) (hlen : 0 ≤ c.length)
    (hbound : c.start_pos + c.length ≤ (old_fc : ℚ)) :
    (c.upgrade_frame_count old_fc new_fc).pos = c.pos ∧
      (c.upgrade_frame_count old_fc new_fc).start_pos
        = c.start_pos * new_fc / old_fc ∧
      (c.upgrade_frame_count old_fc new_fc).length
        = c.length * new_fc / old_fc ∧
      (c.upgrade_frame_count old_fc new_fc).started = c.started := by
  have h0 : (0 : ℚ) < (old_fc : ℚ) := by exact_mod_cast hold
  have hsp' : c.start_pos ≤ (old_fc : ℚ) := by linarith
  have hb0 : 0 ≤ c.start_pos / (old_fc : ℚ) := div_nonneg hsp h0.le
  have hb1 : c.start_pos / (old_fc : ℚ) ≤ 1 := (div_le_one h0).mpr hsp'
  have he0 : 0 ≤ c.start_pos / (old_fc : ℚ) + c.length / (old_fc : ℚ) := by
    have := div_nonneg hlen h0.le
    linarith
  have he1 : c.start_pos / (old_fc : ℚ) + c.length / (old_fc : ℚ) ≤ 1 := by
    rw [div_add_div_same]
    exact (div_le_one h0).mpr hbound
  have hbe : c.start_pos / (old_fc : ℚ)
      ≤ c.start_pos / (old_fc : ℚ) + c.length / (old_fc : ℚ) := by
    have := div_nonneg hlen h0.le
    linarith
  have key : c.upgrade_frame_count old_fc new_fc
      = { c with
            start_pos := c.start_pos / (old_fc : ℚ) * new_fc,
            length := (c.start_pos / (old_fc : ℚ) + c.length / (old_fc : ℚ)
              - c.start_pos / (old_fc : ℚ)) * new_fc } := by
    simp only [Cursor.upgrade_frame_count, Cursor.compute_range, qclamp]
    rw [max_eq_left hb0, min_eq_left hb1, max_eq_left he0, min_eq_left he1,
      if_pos hbe]
  rw [key]
  refine ⟨rfl, ?_, ?_, rfl⟩
  · show c.start_pos / (old_fc : ℚ) * (new_fc : ℚ) = _
    ring
  · show (c.start_pos / (old_fc : ℚ) + c.length / (old_fc : ℚ)
        - c.start_pos / (old_fc : ℚ)) * (new_fc : ℚ) = _
    ring

/-- C7 witness: the rescaling characterization on a concrete cursor
(position 5 in a 10-frame full-file region, upgraded to 20 frames). -/
theorem cursor_upgrade_spec_witness :
    (0 < 10) ∧
      (({ pos := 5, start_pos := 0, length := 10, started := true } :
          Cursor).upgrade_frame_count 10 20).pos = 5 := by
  refine ⟨by norm_num, ?_⟩
  have h := (cursor_upgrade_spec
    { pos := 5, start_pos := 0, length := 10, started := true } 10 20
    (by norm_num) (by norm_num) (by norm_num) (by norm_num)).1
  simpa using h

/-- C9 counterexample: at `pan = 0.5` the panning stage is skipped entirely
(`if pan != 0.5`), so a unit stereo sample passes through as `(1, 1)` even
though the claimed equal-power scaling `cos(pan·π/2)` would attenuate the
left channel to about 0.707 — the code's own `cosf` of that angle is not
1. -/
theorem pan_center_counterexample :
    applyPan (1 / 2) 1 1 = (1, 1) ∧
      1 * cosf (1 / 2 * PI32 / 2) ≠ 1 := by
  constructor
  · norm_num [applyPan]
  · norm_num [cosf, sinf, PI32, SINF_C2, SINF_C3, SINF_C4, SINF_C5, SINF_C6,
      abs_of_pos, abs_of_nonneg, abs_neg]

/-- C9 (amended): for every pan value other than 0.5, the final stereo
stage multiplies the left channel by `cosf(pan·π/2)` and the right channel
by `sinf(pan·π/2)` — the engine's rational fast approximations of cos/sin —
while at `pan = 0.5` (center, the default) both channels pass through
unscaled; the approximation pair is equal-power at the center angle to
within 1/100. -/
theorem pan_formula_off_center (pan l r : ℚ) (h : pan ≠ 1 / 2) :
    applyPan pan l r
        = (l * cosf (pan * PI32 / 2), r * sinf (pan * PI32 / 2)) ∧
      |cosf (PI32 / 4) ^ 2 + sinf (PI32 / 4) ^ 2 - 1| < 1 / 100 := by
  constructor
  · unfold applyPan
    rw [if_pos h]
  · norm_num [cosf, sinf, PI32, SINF_C2, SINF_C3, SINF_C4, SINF_C5, SINF_C6,
      abs_lt, abs_of_pos, abs_of_nonneg, abs_neg]

/-- C9 witness: the off-center formula applied at hard-left `pan = 0`. -/
theorem pan_formula_off_center_witness :
    (0 : ℚ) ≠ 1 / 2 ∧
      applyPan 0 1 1
        = (1 * cosf (0 * PI32 / 2), 1 * sinf (0 * PI32 / 2)) :=
  ⟨by norm_num, (pan_formula_off_center 0 1 1 (by norm_num)).1⟩

/-- `lerp` stays inside [0, 1] when both endpoints do and the exponent is
±2, for any power approximation mapping (0,1) × (0,∞) into [0, 1]. -/
theorem lerp_bounds (pw : ℚ → ℚ → ℚ)
    (hpw : ∀ x e, 0 < x → x < 1 → 0 < e → 0 ≤ pw x e ∧ pw x e ≤ 1)
    (x y0 y1 e : ℚ) (hy0 : 0 ≤ y0) (hy0' : y0 ≤ 1) (hy1 : 0 ≤ y1)
    (hy1' : y1 ≤ 1) (he : e = 2 ∨ e = -2) :
    0 ≤ lerp pw x y0 y1 e ∧ lerp pw x y0 y1 e ≤ 1 := by
  unfold lerp
  by_cases h1 : x ≤ 0
  · rw [if_pos h1]
    exact ⟨hy0, hy0'⟩
  · by_cases h2 : 1 ≤ x
    · rw [if_neg h1, if_pos h2]
      exact ⟨hy1, hy1'⟩
    · have hx0 : 0 < x := not_le.mp h1
      have hx1 : x < 1 := not_le.mp h2
      rw [if_neg h1, if_neg h2]
      rcases he with rfl | rfl
      · rw [if_neg (by norm_num : ¬(2 : ℚ) = 0),
          if_pos (by norm_num : (0 : ℚ) < 2)]
        obtain ⟨hc0, hc1⟩ := hpw x 2 hx0 hx1 (by norm_num)
        constructor <;> nlinarith
      · rw [if_neg (by norm_num : ¬(-2 : ℚ) = 0),
          if_neg (by norm_num : ¬(0 : ℚ) < -2),
          show -(-2 : ℚ) = 2 by norm_num]
        obtain ⟨hc0, hc1⟩ := hpw (1 - x) 2 (by linarith) (by linarith)
          (by norm_num)
        constructor <;> nlinarith

/-- One `Adsr::update` call preserves the envelope invariant and returns a
value in [0, 1], provided the call's sustain lies in [0, 1]. -/
theorem adsr_update_inv (pw : ℚ → ℚ → ℚ)
    (hpw : ∀ x e, 0 < x → x < 1 → 0 < e → 0 ≤ pw x e ∧ pw x e ≤ 1)
    (a : Adsr) (ha : AdsrInv a) (time gate attack decay sustain release : ℚ)
    (hs0 : 0 ≤ sustain) (hs1 : sustain ≤ 1) :
    AdsrInv (Adsr.update pw a time gate attack decay sustain release).1 ∧
      0 ≤ (Adsr.update pw a time gate attack decay sustain release).2 ∧
      (Adsr.update pw a time gate attack decay sustain release).2 ≤ 1 := by
  obtain ⟨st, stime, sval, ac, dc⟩ := a
  obtain ⟨hv0, hv1, hac, hdc⟩ := ha
  simp only at hv0 hv1 hac hdc
  subst hac
  subst hdc
  cases st with
  | Off =>
    by_cases hg : 0 < gate
    · simp only [Adsr.update, if_pos hg]
      exact ⟨⟨le_refl 0, by norm_num, rfl, rfl⟩, le_refl 0, by norm_num⟩
    · simp only [Adsr.update, if_neg hg]
      exact ⟨⟨hv0, hv1, rfl, rfl⟩, le_refl 0, by norm_num⟩
  | Attack =>
    by_cases ht : attack < time - stime
    · simp only [Adsr.update, if_pos ht]
      exact ⟨⟨hv0, hv1, rfl, rfl⟩, by norm_num, le_refl 1⟩
    · simp only [Adsr.update, if_neg ht]
      have h := lerp_bounds pw hpw (fdiv (time - stime) attack) sval 1 2
        hv0 hv1 (by norm_num) (by norm_num) (Or.inl rfl)
      exact ⟨⟨hv0, hv1, rfl, rfl⟩, h.1, h.2⟩
  | Decay =>
    have h := lerp_bounds pw hpw (fdiv (time - stime) decay) 1 sustain (-2)
      (by norm_num) (by norm_num) hs0 hs1 (Or.inr rfl)
    by_cases hg : gate ≤ 0
    · simp only [Adsr.update, if_pos hg]
      exact ⟨⟨h.1, h.2, rfl, rfl⟩, h.1, h.2⟩
    · by_cases hd : decay < time - stime
      · simp only [Adsr.update, if_neg hg, if_pos hd]
        exact ⟨⟨hv0, hv1, rfl, rfl⟩, hs0, hs1⟩
      · simp only [Adsr.update, if_neg hg, if_neg hd]
        exact ⟨⟨hv0, hv1, rfl, rfl⟩, h.1, h.2⟩
  | Sustain =>
    by_cases hg : gate ≤ 0
    · simp only [Adsr.update, if_pos hg]
      exact ⟨⟨hs0, hs1, rfl, rfl⟩, hs0, hs1⟩
    · simp only [Adsr.update, if_neg hg]
      exact ⟨⟨hv0, hv1, rfl, rfl⟩, hs0, hs1⟩
  | Release =>
    by_cases ht : release < time - stime
    · simp only [Adsr.update, if_pos ht]
      exact ⟨⟨hv0, hv1, rfl, rfl⟩, le_refl 0, by norm_num⟩
    · have h := lerp_bounds pw hpw (fdiv (time - stime) release) sval 0 (-2)
        hv0 hv1 (le_refl 0) (by norm_num) (Or.inr rfl)
      by_cases hg : 0 < gate
      · simp only [Adsr.update, if_neg ht, if_pos hg]
        exact ⟨⟨h.1, h.2, rfl, rfl⟩, h.1, h.2⟩
      · simp only [Adsr.update, if_neg ht, if_neg hg]
        exact ⟨⟨hv0, hv1, rfl, rfl⟩, h.1, h.2⟩

/-- All outputs of a run of `Adsr::update` calls from an invariant-satisfying
state lie in [0, 1], provided every call's sustain does. -/
theorem adsr_run_bounded_aux (pw : ℚ → ℚ → ℚ)
    (hpw : ∀ x e, 0 < x → x < 1 → 0 < e → 0 ≤ pw x e ∧ pw x e ≤ 1) :
    ∀ (calls : List AdsrArgs) (a : Adsr), AdsrInv a →
      (∀ c ∈ calls, 0 ≤ c.sustain ∧ c.sustain ≤ 1) →
      ∀ v ∈ (Adsr.run pw a calls).1, 0 ≤ v ∧ v ≤ 1 := by
  intro calls
  induction calls with
  | nil =>
    intro a _ _ v hv
    simp [Adsr.run] at hv
  | cons c cs ih =>
    intro a ha hsus v hv
    have hc := hsus c (List.mem_cons_self c cs)
    have h := adsr_update_inv pw hpw a ha c.time c.gate c.attack c.decay
      c.sustain c.release hc.1 hc.2
    simp only [Adsr.run] at hv
    rcases List.mem_cons.mp hv with rfl | hv
    · exact ⟨h.2.1, h.2.2⟩
    · exact ih _ h.1 (fun d hd => hsus d (List.mem_cons_of_mem c hd)) v hv

/-- C8 counterexample: a parsed a sustain of -0.5 (command key `sustain`) passes through
`init_envelope` unclamped (`s.min(1.0)` only bounds it above), and the
resulting update sequence — strictly increasing times, gate high — makes
`Adsr::update` return −1/2, outside [0, 1]. -/
theorem adsr_negative_sustain_counterexample :
    (init_envelope none none none (some (-(1 / 2))) none).sus = -(1 / 2) ∧
      (Adsr.run pwSq {} adsrCalls).1 = [0, 1, -(1 / 2)] ∧
      ¬ (0 ≤ (-(1 / 2) : ℚ)) := by
  refine ⟨?_, ?_, by norm_num⟩
  · simp only [init_envelope]
    rw [if_neg (by simp)]
    norm_num [min_def]
  · norm_num [Adsr.run, Adsr.update, adsrCalls, pwSq, lerp, fdiv]

/-- C8 (amended): for every sequence of `Adsr::update` calls with strictly
increasing times whose sustain arguments lie in [0, 1] — negative parsed
sustains reach the envelope unclamped, so this restriction is necessary —
every returned value lies in [0, 1], for any power approximation mapping
(0,1) × (0,∞) into [0, 1]. -/
theorem adsr_output_bounded (pw : ℚ → ℚ → ℚ)
    (hpw : ∀ x e, 0 < x → x < 1 → 0 < e → 0 ≤ pw x e ∧ pw x e ≤ 1)
    (calls : List AdsrArgs)
    (hsus : ∀ c ∈ calls, 0 ≤ c.sustain ∧ c.sustain ≤ 1)
    (hmono : List.Chain' (fun c d => c.time < d.time) calls) :
    ∀ v ∈ (Adsr.run pw ({} : Adsr) calls).1, 0 ≤ v ∧ v ≤ 1 :=
  adsr_run_bounded_aux pw hpw calls {}
    ⟨le_refl 0, by norm_num, rfl, rfl⟩ hsus

/-- C8 witness: the bound applied to a concrete two-call run with the
squaring power function. -/
theorem adsr_output_bounded_witness :
    (∀ x e : ℚ, 0 < x → x < 1 → 0 < e → 0 ≤ pwSq x e ∧ pwSq x e ≤ 1) ∧
      (∀ c ∈ wCalls, 0 ≤ c.sustain ∧ c.sustain ≤ 1) ∧
      List.Chain' (fun c d => c.time < d.time) wCalls ∧
      ∀ v ∈ (Adsr.run pwSq ({} : Adsr) wCalls).1, 0 ≤ v ∧ v ≤ 1 := by
  have hpw : ∀ x e : ℚ, 0 < x → x < 1 → 0 < e → 0 ≤ pwSq x e ∧ pwSq x e ≤ 1 := by
    intro x e hx0 hx1 _
    simp only [pwSq]
    constructor
    · positivity
    · nlinarith
  have hsus : ∀ c ∈ wCalls, 0 ≤ c.sustain ∧ c.sustain ≤ 1 := by
    intro c hc
    simp only [wCalls, List.mem_cons, List.mem_singleton] at hc
    rcases hc with rfl | rfl | h
    · norm_num
    · norm_num
    · simp at h
  have hmono : List.Chain' (fun c d : AdsrArgs => c.time < d.time) wCalls := by
    norm_num [wCalls]
  exact ⟨hpw, hsus, hmono, adsr_output_bounded pwSq hpw wCalls hsus hmono⟩

/-- Reading a store at its own index. -/
theorem store_at (b : Buf) (k : Nat) (v : ℚ) : store b k v k = v := by
  simp [store]

/-- Reading a store at any other index. -/
theorem store_ne (b : Buf) (k : Nat) (v : ℚ) (j : Nat) (h : j ≠ k) :
    store b k v j = b j := by
  simp [store, h]

/-- A fold whose every step leaves index `j` alone leaves index `j` alone. -/
theorem foldl_preserve {α : Type} (f : Buf → α → Buf) (j : Nat) :
    ∀ (l : List α) (b : Buf), (∀ a ∈ l, ∀ b' : Buf, f b' a j = b' j) →
      (l.foldl f b) j = b j := by
  intro l
  induction l with
  | nil => intro b _; rfl
  | cons a as ih =>
    intro b h
    rw [List.foldl_cons, ih _ (fun x hx => h x (List.mem_cons_of_mem a hx)),
      h a (List.mem_cons_self a as)]

/-- The channel-pair offset `k % num_pairs * 2 + 1` stays inside the
sample's channel group whenever there is at least one pair. -/
theorem pair_idx_bound (channels : Nat) (h : 1 ≤ channels / 2) (k : Nat) :
    k % (channels / 2) * 2 + 1 < channels := by
  have h2 : k % (channels / 2) < channels / 2 := Nat.mod_lt _ (by omega)
  have h3 : channels / 2 * 2 ≤ channels := Nat.div_mul_le_self channels 2
  omega

/-- `clamp` really clamps. -/
theorem qclamp_bounds (x lo hi : ℚ) (h : lo ≤ hi) :
    lo ≤ qclamp x lo hi ∧ qclamp x lo hi ≤ hi :=
  ⟨le_min (le_max_right x lo) h, min_le_right _ _⟩

/-- `gen_sample` writes only inside its own channel group
`[base, base + channels)`. -/
theorem gen_sample_untouched (channels numOrbits : Nat)
    (voices : List VoiceOut) (orbitOuts : List (ℚ × ℚ)) (base : Nat)
    (buf : Buf) (j : Nat) (hch : 1 ≤ channels / 2)
    (hj : j < base ∨ base + channels ≤ j) :
    gen_sample channels numOrbits voices orbitOuts base buf j = buf j := by
  have hne : ∀ c < channels, j ≠ base + c := by
    intro c hc
    rcases hj with hj | hj <;> omega
  unfold gen_sample
  rw [foldl_preserve, foldl_preserve, foldl_preserve, foldl_preserve]
  · intro c hc b'
    exact store_ne b' _ _ j (hne c (List.mem_range.mp hc))
  · intro v _ b'
    have h1 := pair_idx_bound channels hch (v.orbit % numOrbits)
    rw [addAt, store_ne _ _ _ j (by omega), addAt,
      store_ne _ _ _ j (by omega)]
  · intro oi _ b'
    have h1 := pair_idx_bound channels hch oi.1
    rw [addAt, store_ne _ _ _ j (by omega), addAt,
      store_ne _ _ _ j (by omega)]
  · intro c hc b'
    exact store_ne b' _ _ j (hne c (List.mem_range.mp hc))

/-- After the clamp loop over a duplicate-free channel list, every visited
channel of the sample group holds a clamped value. -/
theorem clamp_loop_mem (base : Nat) :
    ∀ l : List Nat, l.Nodup → ∀ (b : Buf), ∀ c ∈ l,
      -1 ≤ (l.foldl (clampStep base) b) (base + c) ∧
        (l.foldl (clampStep base) b) (base + c) ≤ 1 := by
  intro l
  induction l with
  | nil => intro _ b c hc; cases hc
  | cons c' rest ih =>
    intro hnd b c hc
    have hnd' := List.nodup_cons.mp hnd
    rw [List.foldl_cons]
    rcases List.mem_cons.mp hc with rfl | hc
    · have hpres : (rest.foldl (clampStep base) (clampStep base b c))
          (base + c) = (clampStep base b c) (base + c) := by
        apply foldl_preserve
        intro a ha b'
        have hac : a ≠ c := fun h => hnd'.1 (h ▸ ha)
        exact store_ne b' _ _ _ (by omega)
      rw [hpres, clampStep, store_at]
      exact qclamp_bounds _ _ _ (by norm_num)
    · exact ih hnd'.2 (clampStep base b c') c hc

/-- Every channel of the sample group is written and clamped by
`gen_sample`. -/
theorem gen_sample_bounds (channels numOrbits : Nat) (voices : List VoiceOut)
    (orbitOuts : List (ℚ × ℚ)) (base : Nat) (buf : Buf) (c : Nat)
    (hc : c < channels) :
    -1 ≤ gen_sample channels numOrbits voices orbitOuts base buf (base + c) ∧
      gen_sample channels numOrbits voices orbitOuts base buf (base + c)
        ≤ 1 := by
  unfold gen_sample
  exact clamp_loop_mem base (List.range channels) (List.nodup_range _) _
    c (List.mem_range.mpr hc)

/-- The first `n` sample groups of the block loop are fully clamped. -/
theorem process_block_aux (channels numOrbits : Nat)
    (steps : Nat → List VoiceOut × List (ℚ × ℚ)) (hch : 1 ≤ channels / 2) :
    ∀ (n : Nat) (b : Buf) (j : Nat), j < n * channels →
      -1 ≤ ((List.range n).foldl
          (fun b i => gen_sample channels numOrbits (steps i).1 (steps i).2
            (i * channels) b) b) j ∧
        ((List.range n).foldl
          (fun b i => gen_sample channels numOrbits (steps i).1 (steps i).2
            (i * channels) b) b) j ≤ 1 := by
  intro n
  induction n with
  | zero => intro b j hj; omega
  | succ n ih =>
    intro b j hj
    rw [List.range_succ, List.foldl_append, List.foldl_cons, List.foldl_nil]
    by_cases hjn : j < n * channels
    · rw [gen_sample_untouched _ _ _ _ _ _ _ hch (Or.inl hjn)]
      exact ih b j hjn
    · have hge : n * channels ≤ j := le_of_not_lt hjn
      have hlt : j < n * channels + channels := by
        have : (n + 1) * channels = n * channels + channels := by ring
        omega
      obtain ⟨c, rfl, hc⟩ : ∃ c, j = n * channels + c ∧ c < channels :=
        ⟨j - n * channels, by omega, by omega⟩
      exact gen_sample_bounds channels numOrbits _ _ _ _ c hc

/-- C1: for every call to `process_block` with an output buffer whose length
is a multiple of the channel count (and at least one stereo pair of output
channels — with fewer the Rust code would divide by zero), every sample of
the buffer is written during the call and, on return, every sample lies in
[-1, 1].  Quantified over arbitrary per-sample voice contributions and orbit
returns, and over an arbitrary initial buffer, so the bound cannot come from
the buffer's prior contents. -/
theorem process_block_covers_and_clamps (channels numOrbits : Nat)
    (steps : Nat → List VoiceOut × List (ℚ × ℚ)) (outputLen : Nat)
    (buf : Buf) (hch : 2 ≤ channels) (hlen : channels ∣ outputLen) :
    ∀ j < outputLen,
      -1 ≤ process_block channels numOrbits steps outputLen buf j ∧
        process_block channels numOrbits steps outputLen buf j ≤ 1 := by
  intro j hj
  have hch' : 1 ≤ channels / 2 := by
    rw [Nat.one_le_div_iff (by omega)]
    exact hch
  have hd : outputLen / channels * channels = outputLen :=
    Nat.div_mul_cancel hlen
  unfold process_block
  exact process_block_aux channels numOrbits steps hch'
    (outputLen / channels) buf j (by omega)

/-- C1 witness: a two-channel, one-sample block over a hostile initial
buffer (constant 5) and empty voice/orbit contributions; index 1 is clamped
into [-1, 1]. -/
theorem process_block_covers_and_clamps_witness :
    (2 ≤ 2) ∧ (2 ∣ 2) ∧ (1 < 2) ∧
      (-1 ≤ process_block 2 8 (fun _ => ([], [])) 2 (fun _ => (5 : ℚ)) 1 ∧
        process_block 2 8 (fun _ => ([], [])) 2 (fun _ => (5 : ℚ)) 1 ≤ 1) :=
  ⟨le_refl 2, dvd_refl 2, by norm_num,
    process_block_covers_and_clamps 2 8 (fun _ => ([], [])) 2
      (fun _ => (5 : ℚ)) (le_refl 2) (dvd_refl 2) 1 (by norm_num)⟩

/-- C10: the modulator subsystem — the only source of randomness in the
engine — is a pure function of its explicit state: two runs over the same
operation sequence from equal states produce identical parameter writes and
identical final states, and a freshly constructed voice always starts from
the fixed seed 123456789, so two freshly constructed engines fed the same
commands behave identically.  (In this embedding every function is pure by
construction; the content is that the translated `lcg`/`rand`/`set_mod`
code draws on no state beyond the declared seed and modulator table.) -/
theorem modulator_determinism (elog : ℚ → ℚ → ℚ) (ops : List VoiceOp)
    (v w : VoiceRng) (h : v = w) :
    runVoiceOps elog ops v = runVoiceOps elog ops w ∧
      ({} : VoiceRng).seed = 123456789 :=
  ⟨by rw [h], rfl⟩

/-- C10 witness: two identically fresh voices run the same concrete
install-and-tick sequence to the same result. -/
theorem modulator_determinism_witness :
    ({} : VoiceRng) = ({} : VoiceRng) ∧
      runVoiceOps elogOne wOps {} = runVoiceOps elogOne wOps {} :=
  ⟨rfl, (modulator_determinism elogOne wOps {} {} rfl).1⟩

end Doux
